import Mathlib

/-
Verification of the movement ledger and aggregation layer of a small
bookkeeping web application (a single Flask file, `app.py`).

The embedding below translates the relevant parts of the source into Lean:
the relational rows (Business, Product, Movement) become structures, the
database becomes an explicit `AppDB` state, and each route handler that the
specification claims talk about becomes a pure function over that state.
Monetary amounts are modelled as rationals (the source stores Python floats;
none of the claims depend on rounding behaviour).  Calendar dates are
modelled as year/month/day triples with the proleptic Gregorian helper
functions that `datetime.date` provides (comparison, previous/next day,
`toordinal`).  Times of day never influence any claim and are carried as a
plain natural number.
-/

namespace MiWeb

/-- A calendar date, as in the Python `datetime.date` values stored in the
`Movement.date` column. -/
structure Date where
  year : Nat
  month : Nat
  day : Nat
deriving DecidableEq

/-- Gregorian leap-year rule, as implemented by Python `datetime`. -/
def isLeap (y : Nat) : Bool :=
  (y % 4 == 0 && y % 100 != 0) || (y % 400 == 0)

/-- Number of days in a month, as implemented by Python `datetime`. -/
def daysInMonth (y m : Nat) : Nat :=
  if m = 2 then (if isLeap y then 29 else 28)
  else if m = 4 ∨ m = 6 ∨ m = 9 ∨ m = 11 then 30
  else 31

/-- Days in the months of year `y` strictly before month `m` (cumulative
month table with the leap adjustment), used by `toOrdinal`. -/
def daysBeforeMonth (y m : Nat) : Nat :=
  (match m with
   | 1 => 0 | 2 => 31 | 3 => 59 | 4 => 90 | 5 => 120 | 6 => 151 | 7 => 181
   | 8 => 212 | 9 => 243 | 10 => 273 | 11 => 304 | 12 => 334 | _ => 0)
  + (if 3 ≤ m ∧ m ≤ 12 ∧ isLeap y = true then 1 else 0)

/-- Python `date.toordinal`: day count in the proleptic Gregorian calendar,
with day 1 being 0001-01-01.  The source converts dates to ordinals before
fitting the regression line. -/
def toOrdinal (d : Date) : Nat :=
  365 * (d.year - 1) + (d.year - 1) / 4 - (d.year - 1) / 100 + (d.year - 1) / 400
    + daysBeforeMonth d.year d.month + d.day

/-- Date comparison, as Python compares `datetime.date` values
(lexicographic on year, month, day).  SQLAlchemy date filters such as
`Movement.date >= start` use this order. -/
def dateLE (a b : Date) : Bool :=
  decide (a.year < b.year ∨ (a.year = b.year ∧
    (a.month < b.month ∨ (a.month = b.month ∧ a.day ≤ b.day))))

/-- The previous calendar day, modelling `someDate - timedelta(days=1)` as
used by `fiscal_report` on the first day of a month. -/
def prevDay (d : Date) : Date :=
  if 1 < d.day then ⟨d.year, d.month, d.day - 1⟩
  else if 1 < d.month then ⟨d.year, d.month - 1, daysInMonth d.year (d.month - 1)⟩
  else ⟨d.year - 1, 12, 31⟩

/-- The next calendar day, used to enumerate the days of a window as
`pd.date_range(start, end)` does in `plot_sales`. -/
def nextDay (d : Date) : Date :=
  if d.day < daysInMonth d.year d.month then ⟨d.year, d.month, d.day + 1⟩
  else if d.month < 12 then ⟨d.year, d.month + 1, 1⟩
  else ⟨d.year + 1, 1, 1⟩

/-- The list of `n` consecutive calendar days starting at `s`:
`pd.date_range(start, end)` where the window holds `n` days.  `plot_sales`
uses the 30-day window ending today. -/
def dateRange (s : Date) : Nat → List Date
  | 0 => []
  | n + 1 => s :: dateRange (nextDay s) n

/-- A well-formed calendar date, which is the only kind that
`datetime.fromisoformat` can produce and hence the only kind the store can
contain. -/
def validDate (d : Date) : Prop :=
  1 ≤ d.year ∧ 1 ≤ d.month ∧ d.month ≤ 12 ∧ 1 ≤ d.day ∧
    d.day ≤ daysInMonth d.year d.month

instance (d : Date) : Decidable (validDate d) := by
  unfold validDate; infer_instance

/-- Row of the `business` table (`class Business`): id, name, owner. -/
structure Business where
  id : Nat
  name : String
  owner_id : Nat
deriving DecidableEq

/-- Row of the `product` table (`class Product`). -/
structure Product where
  id : Nat
  business_id : Nat
  name : String
  cost : Rat
  price : Rat
  stock : Int
deriving DecidableEq

/-- Row of the `movement` table (`class Movement`): a dated financial event.
`tipo` is the movement kind column; the source stores the literals
`"venta"` (sale) and `"gasto"` (expense) but the column accepts any
string. -/
structure Movement where
  id : Nat
  business_id : Nat
  date : Date
  time : Nat
  tipo : String
  amount : Rat
  category : Option String
  note : Option String
deriving DecidableEq

/-- The persistent state: the relational tables plus the autoincrement
counters that SQLite uses for primary keys. -/
structure AppDB where
  businesses : List Business := []
  products : List Product := []
  movements : List Movement := []
  nextMid : Nat := 1
  nextPid : Nat := 1
deriving DecidableEq

/-- GET branch of `api_movements` (the listMovements operation of the spec):
`Movement.query.filter_by(business_id=bid).all()`. -/
def api_movements_get (db : AppDB) (bid : Nat) : List Movement :=
  db.movements.filter (fun m => m.business_id == bid)

/-- POST branch of `api_movements` (the recordMovement operation):
constructs a `Movement` from the parsed request fields, adds it to the
session and commits, returning the new id.  The handler performs no
validation beyond the parses themselves: `float(data['amount'])` accepts
any parseable number (negative included), `tipo` is stored verbatim, and
`business_id=bid` is stored without checking that the business exists.
An unparseable amount, date or time raises an unhandled exception in the
source rather than producing a typed error; the arguments here are the
already-parsed values. -/
def api_movements_post (db : AppDB) (bid : Nat) (date : Date) (time : Nat)
    (tipo : String) (amount : Rat) (category note : Option String) :
    Nat × AppDB :=
  let m : Movement := ⟨db.nextMid, bid, date, time, tipo, amount, category, note⟩
  (db.nextMid, { db with movements := db.movements ++ [m], nextMid := db.nextMid + 1 })

/-- POST branch of `api_products` (the recordProduct operation). -/
def api_products_post (db : AppDB) (bid : Nat) (name : String)
    (cost price : Rat) (stock : Int) : Nat × AppDB :=
  let p : Product := ⟨db.nextPid, bid, name, cost, price, stock⟩
  (db.nextPid, { db with products := db.products ++ [p], nextPid := db.nextPid + 1 })

/-- The per-day query inside the loop of `plot_sales`:
`sum(Movement.amount)` filtered by `business_id == bid` and `date == d`,
with SQL NULL (no rows) collapsed to 0 by the `or 0`.  Note that the source
filter has no condition on `tipo`. -/
def dayTotal (db : AppDB) (bid : Nat) (d : Date) : Rat :=
  ((db.movements.filter (fun m => m.business_id == bid && m.date == d)).map
    (fun m => m.amount)).sum

/-- The data series computed by `plot_sales` (the dailySalesTotals
operation), generalised over the window: the source always uses the 30-day
window ending today, iterating `pd.date_range(start, end)` and running
`dayTotal` for each day.  `n` is the number of days in the window. -/
def plot_sales_totals (db : AppDB) (bid : Nat) (start : Date) (n : Nat) :
    List (Date × Rat) :=
  (dateRange start n).map (fun d => (d, dayTotal db bid d))

/-- The label rewrite `r[0] or 'sin-categoria'` done by `plot_category`:
Python `or` replaces both `None` and the falsy empty string by the sentinel
label. -/
def catLabel : Option String → String
  | none => "sin-categoria"
  | some s => if s = "" then "sin-categoria" else s

/-- The data computed by `plot_category` (the categoryTotals operation):
one `(label, total)` pair per distinct raw `category` value of the
movements of the business, the total being the sum of amounts in that
group.  The source groups by the raw column value and only afterwards
rewrites the label, and it sums sales and expenses alike (no `tipo`
condition). -/
def plot_category_data (db : AppDB) (bid : Nat) : List (String × Rat) :=
  let movs := api_movements_get db bid
  let cats := (movs.map (fun m => m.category)).dedup
  cats.map (fun c =>
    (catLabel c, ((movs.filter (fun m => m.category == c)).map
      (fun m => m.amount)).sum))

/-- The effective label a movement contributes to, following the words of
the spec: its category, or the sentinel when it has none. -/
def effLabel (mv : Movement) : String := catLabel mv.category

/-- Modelled from the spec: the mapping value that categoryTotals should
associate to a label, namely the sum of amounts of all movements of the
business carrying that label (movements with no category counting under the
sentinel label). -/
def catSum (db : AppDB) (bid : Nat) (l : String) : Rat :=
  (((api_movements_get db bid).filter (fun mv => effLabel mv == l)).map
    (fun m => m.amount)).sum

/-- Whether some movement of the business carries the label. -/
def hasLabel (db : AppDB) (bid : Nat) (l : String) : Bool :=
  (api_movements_get db bid).any (fun mv => effLabel mv == l)

/-- Reading a `(label, total)` list as a mapping: the total paired with the
first occurrence of the label. -/
def lookupTotal (rows : List (String × Rat)) (l : String) : Option Rat :=
  (rows.find? (fun p => p.1 == l)).map (fun p => p.2)

/-- The sale movements of a business:
`filter(Movement.business_id==bid, Movement.tipo=='venta')` in
`predict_sales`. -/
def saleMovs (db : AppDB) (bid : Nat) : List Movement :=
  db.movements.filter (fun m => m.business_id == bid && m.tipo == "venta")

/-- The distinct dates carrying at least one sale movement: the groups of
`group_by(Movement.date)` in `predict_sales`. -/
def saleDates (db : AppDB) (bid : Nat) : List Date :=
  ((saleMovs db bid).map (fun m => m.date)).dedup

/-- Total of sale amounts on one date: the summed column of one group. -/
def saleTotalOn (db : AppDB) (bid : Nat) (d : Date) : Rat :=
  (((saleMovs db bid).filter (fun m => m.date == d)).map
    (fun m => m.amount)).sum

/-- The training pairs (date ordinal, daily sale total), one per distinct
sale date: the data frame `predict_sales` fits the regression on. -/
def trainPoints (db : AppDB) (bid : Nat) : List (Nat × Rat) :=
  (saleDates db bid).map (fun d => (toOrdinal d, saleTotalOn db bid d))

/-- Modelled from the external library: `sklearn.LinearRegression().fit` on
one feature is documented as ordinary least squares, whose unique solution
is this closed form; returns `(slope, intercept)`. -/
def olsFit (pts : List (Nat × Rat)) : Rat × Rat :=
  let n : Rat := pts.length
  let sx : Rat := (pts.map (fun p => (p.1 : Rat))).sum
  let sy : Rat := (pts.map (fun p => p.2)).sum
  let sxy : Rat := (pts.map (fun p => (p.1 : Rat) * p.2)).sum
  let sxx : Rat := (pts.map (fun p => (p.1 : Rat) * (p.1 : Rat))).sum
  let slope := (n * sxy - sx * sy) / (n * sxx - sx * sx)
  (slope, (sy - slope * sx) / n)

/-- Evaluation of the fitted line at a date ordinal:
`model.predict([[d.toordinal()]])`. -/
def predLine (ab : Rat × Rat) (x : Nat) : Rat := ab.1 * (x : Rat) + ab.2

/-- One step of taking the running maximum of two dates in date order. -/
def maxStep (a b : Date) : Date := if dateLE a b then b else a

/-- The latest element of a list of dates, as `df['date'].max()` computes
it. -/
def maxDate : List Date → Date
  | [] => ⟨1, 1, 1⟩
  | d :: ds => ds.foldl maxStep d

/-- The `predict_sales` route (the forecastSales operation): group sale
movements by date; with fewer than 5 groups answer the error response,
otherwise fit the regression over the training pairs and return one
prediction for each of the 7 days after the latest observed sale date.
The source returns each predicted day as an ISO date string; here a day is
represented by its `toordinal` value, which determines the date. -/
def predict_sales (db : AppDB) (bid : Nat) :
    Except String (List (Nat × Rat)) :=
  if (saleDates db bid).length < 5 then
    .error "Not enough data for prediction"
  else
    let fit := olsFit (trainPoints db bid)
    let lastOrd := toOrdinal (maxDate (saleDates db bid))
    .ok ((List.range 7).map (fun i =>
      (lastOrd + 1 + i, predLine fit (lastOrd + 1 + i))))

/-- Last day of the month as `fiscal_report` computes it: the day before
the first of the next month, rolling December over to January of the next
year. -/
def monthEnd (y m : Nat) : Date :=
  if m == 12 then prevDay ⟨y + 1, 1, 1⟩ else prevDay ⟨y, m + 1, 1⟩

/-- The row filter of `fiscal_report`:
`Movement.business_id==bid, Movement.date>=start, Movement.date<=end`. -/
def inFiscalRange (bid y m : Nat) (mv : Movement) : Bool :=
  mv.business_id == bid && dateLE ⟨y, m, 1⟩ mv.date &&
    dateLE mv.date (monthEnd y m)

/-- Result record of `fiscal_report`. -/
structure FiscalSummary where
  sales : Rat
  expenses : Rat
  profit : Rat
deriving DecidableEq

/-- The `fiscal_report` route (the fiscalSummary operation): select the
movements of the business dated within the month, sum the `venta` and the
`gasto` amounts separately, and report their difference as profit. -/
def fiscal_report (db : AppDB) (bid y m : Nat) : FiscalSummary :=
  let rows := db.movements.filter (inFiscalRange bid y m)
  let total_sales := ((rows.filter (fun r => r.tipo == "venta")).map
    (fun r => r.amount)).sum
  let total_expenses := ((rows.filter (fun r => r.tipo == "gasto")).map
    (fun r => r.amount)).sum
  ⟨total_sales, total_expenses, total_sales - total_expenses⟩

/-- Modelled from the spec: the sales total of a calendar month, summing
the `venta` movements of the business whose date has exactly that year and
month. -/
def salesInMonth (db : AppDB) (bid y m : Nat) : Rat :=
  ((db.movements.filter (fun mv => mv.business_id == bid &&
    mv.tipo == "venta" && mv.date.year == y && mv.date.month == m)).map
    (fun mv => mv.amount)).sum

/-- Modelled from the spec: the expenses total of a calendar month. -/
def expensesInMonth (db : AppDB) (bid y m : Nat) : Rat :=
  ((db.movements.filter (fun mv => mv.business_id == bid &&
    mv.tipo == "gasto" && mv.date.year == y && mv.date.month == m)).map
    (fun mv => mv.amount)).sum

/-- Shorthand for building a movement row in the concrete stores below. -/
def mkMov (i b : Nat) (dt : Date) (tp : String) (amt : Rat)
    (cat : Option String) : Movement :=
  ⟨i, b, dt, 0, tp, amt, cat, none⟩

/-- Store holding one expense movement of 50 for business 1 on
2024-01-10. -/
def dbExpenseOnly : AppDB :=
  { movements := [mkMov 1 1 ⟨2024, 1, 10⟩ "gasto" 50 (some "rent")], nextMid := 2 }

/-- The empty store: no businesses, no movements. -/
def dbEmpty : AppDB := {}

/-- Store for the fiscal-summary witness: business 1 has a sale of 100 on
2024-02-10, an expense of 40 on the leap day 2024-02-29 and a sale of 7 on
2024-03-01; business 2 has a sale of 999 inside February. -/
def dbFiscal : AppDB :=
  { movements :=
      [mkMov 1 1 ⟨2024, 2, 10⟩ "venta" 100 none,
       mkMov 2 1 ⟨2024, 2, 29⟩ "gasto" 40 none,
       mkMov 3 1 ⟨2024, 3, 1⟩ "venta" 7 none,
       mkMov 4 2 ⟨2024, 2, 15⟩ "venta" 999 none],
    nextMid := 5 }

/-- Store where business 1 has sale movements on exactly five distinct
dates (with one date duplicated) plus one expense. -/
def dbFiveSales : AppDB :=
  { movements :=
      [mkMov 1 1 ⟨2024, 3, 1⟩ "venta" 10 none,
       mkMov 2 1 ⟨2024, 3, 2⟩ "venta" 20 none,
       mkMov 3 1 ⟨2024, 3, 3⟩ "venta" 30 none,
       mkMov 4 1 ⟨2024, 3, 4⟩ "venta" 40 none,
       mkMov 5 1 ⟨2024, 3, 5⟩ "venta" 50 none,
       mkMov 6 1 ⟨2024, 3, 5⟩ "venta" 5 none,
       mkMov 7 1 ⟨2024, 3, 2⟩ "gasto" 99 none],
    nextMid := 8 }

/-- Store exhibiting the category edge case: one movement whose category is
the empty string and one with no category at all. -/
def dbCatDup : AppDB :=
  { movements :=
      [mkMov 1 1 ⟨2024, 1, 1⟩ "venta" 5 (some ""),
       mkMov 2 1 ⟨2024, 1, 2⟩ "gasto" 7 none],
    nextMid := 3 }

/-- Store for the category-totals witness, matching the example of the
spec: two movements with category "rent" (50 and 30) and one with no
category (20). -/
def dbCat : AppDB :=
  { movements :=
      [mkMov 1 1 ⟨2024, 1, 1⟩ "gasto" 50 (some "rent"),
       mkMov 2 1 ⟨2024, 1, 2⟩ "gasto" 30 (some "rent"),
       mkMov 3 1 ⟨2024, 1, 3⟩ "venta" 20 none],
    nextMid := 4 }

/-- Store for the round-trip witness: business 1 already has a sale of 10
on 2024-01-01. -/
def dbRound : AppDB :=
  { movements := [mkMov 1 1 ⟨2024, 1, 1⟩ "venta" 10 none], nextMid := 2 }

/-- Store holding a single movement of business 1 whose kind is neither
`venta` nor `gasto`, dated inside March 2024, amount 70. -/
def dbAdjust : AppDB :=
  { movements := [mkMov 1 1 ⟨2024, 3, 5⟩ "ajuste" 70 none], nextMid := 2 }

end MiWeb

namespace MiWeb

/-- C1: the claim says each entry of dailySalesTotals is the sum of the
`sale` movements of that day, a day without sales totalling 0.  On the
store holding a single `gasto` (expense) movement of 50 on 2024-01-10, the
window consisting of that day returns total 50 for it, although the day
has no sale movement at all (the sale amounts of the store sum to 0): the
per-day query of `plot_sales` has no condition on `tipo`, so expenses are
counted into the daily sales series. -/
theorem c1_plot_sales_counts_expenses :
    plot_sales_totals dbExpenseOnly 1 ⟨2024, 1, 10⟩ 1 = [(⟨2024, 1, 10⟩, 50)] ∧
      ((saleMovs dbExpenseOnly 1).map (fun m => m.amount)).sum = 0 := by
  constructor
  · simp [plot_sales_totals, dateRange, dayTotal, dbExpenseOnly, mkMov]
  · simp [saleMovs, dbExpenseOnly, mkMov]

/-- C2: the claim says recordMovement rejects a negative amount with
ValidationError, an unknown kind with ValidationError, and an unresolvable
business with NotFoundError.  On the empty store (business 1 does not
exist) a POST with kind "foo" and amount -5 nevertheless succeeds: the
handler returns id 1 and durably appends the movement unchanged, because
`api_movements` performs no validation at all. -/
theorem c2_record_movement_unvalidated :
    dbEmpty.businesses = [] ∧
      (api_movements_post dbEmpty 1 ⟨2024, 1, 1⟩ 0 "foo" (-5) none none).1 = 1 ∧
      ((api_movements_post dbEmpty 1 ⟨2024, 1, 1⟩ 0 "foo" (-5) none none).2).movements
        = [⟨1, 1, ⟨2024, 1, 1⟩, 0, "foo", -5, none, none⟩] := by
  exact ⟨rfl, rfl, by simp [api_movements_post, dbEmpty]⟩

/-- C8: tenant isolation of reads: every movement returned by the GET
branch of `api_movements` (listMovements) has the queried business id,
whatever the store contains. -/
theorem c8_list_movements_isolated :
    ∀ (db : AppDB) (bid : Nat),
      (api_movements_get db bid).all (fun m => m.business_id == bid) = true := by
  intro db bid
  rw [List.all_eq_true]
  intro m hm
  exact (List.mem_filter.mp hm).2

/-- C9: movements are immutable and append-only: recordMovement extends the
movement table by exactly the one new row, leaving every previously stored
movement unchanged, and recordProduct leaves the movement table untouched
(the aggregation and forecast operations are pure reads of the store). -/
theorem c9_movements_append_only :
    (∀ (db : AppDB) (bid : Nat) (d : Date) (t : Nat) (tp : String) (amt : Rat)
        (cat note : Option String),
      ((api_movements_post db bid d t tp amt cat note).2).movements
        = db.movements ++ [⟨db.nextMid, bid, d, t, tp, amt, cat, note⟩]) ∧
    (∀ (db : AppDB) (bid : Nat) (name : String) (cost price : Rat) (stock : Int),
      ((api_products_post db bid name cost price stock).2).movements
        = db.movements) := by
  exact ⟨fun _ _ _ _ _ _ _ _ => rfl, fun _ _ _ _ _ _ => rfl⟩

theorem dateLE_iff (a b : Date) :
    dateLE a b = true ↔ (a.year < b.year ∨ (a.year = b.year ∧
      (a.month < b.month ∨ (a.month = b.month ∧ a.day ≤ b.day)))) := by
  simp [dateLE]

theorem monthEnd_eq (y m : Nat) (h1 : 1 ≤ m) (h2 : m ≤ 12) :
    monthEnd y m = ⟨y, m, daysInMonth y m⟩ := by
  by_cases h : m = 12
  · subst h
    simp [monthEnd, prevDay, daysInMonth]
  · have hm : ¬(m == 12) = true := by simp [h]
    have h1' : 1 < m + 1 := by omega
    simp only [monthEnd, if_neg hm, prevDay, Nat.add_sub_cancel]
    norm_num
    intro hc
    exact absurd hc (by omega)

theorem mem_month_iff (y m : Nat) (d : Date) (hd : validDate d) :
    (dateLE ⟨y, m, 1⟩ d && dateLE d ⟨y, m, daysInMonth y m⟩) = true ↔
      (d.year = y ∧ d.month = m) := by
  rw [Bool.and_eq_true, dateLE_iff, dateLE_iff]
  simp only []
  constructor
  · rintro ⟨hA, hB⟩
    omega
  · rintro ⟨hy, hm⟩
    subst hy; subst hm
    obtain ⟨_, _, _, h4, h5⟩ := hd
    omega

theorem fiscal_filter_eq (db : AppDB) (bid y m : Nat) (tp : String)
    (h1 : 1 ≤ m) (h2 : m ≤ 12)
    (hv : ∀ mv ∈ db.movements, validDate mv.date) :
    (db.movements.filter (inFiscalRange bid y m)).filter (fun r => r.tipo == tp)
      = db.movements.filter (fun mv => mv.business_id == bid && mv.tipo == tp
          && mv.date.year == y && mv.date.month == m) := by
  rw [List.filter_filter]
  apply List.filter_congr
  intro mv hmv
  have hvd := hv mv hmv
  rw [Bool.eq_iff_iff]
  simp only [inFiscalRange, monthEnd_eq y m h1 h2, Bool.and_eq_true, beq_iff_eq]
  have hmm := mem_month_iff y m mv.date hvd
  rw [Bool.and_eq_true] at hmm
  tauto

/-- C3: on a store of well-formed dates and a real month, the fiscal report
sums exactly the movements dated inside the calendar month (the range
filter of the source, with its December rollover, selects precisely the
dates of that year and month): sales is the sum of the `venta` amounts of
the month, expenses the sum of the `gasto` amounts, and the reported profit
is exactly sales minus expenses. -/
theorem c3_fiscal_summary (db : AppDB) (bid y m : Nat)
    (h1 : 1 ≤ m) (h2 : m ≤ 12)
    (hv : ∀ mv ∈ db.movements, validDate mv.date) :
    (fiscal_report db bid y m).sales = salesInMonth db bid y m ∧
      (fiscal_report db bid y m).expenses = expensesInMonth db bid y m ∧
      (fiscal_report db bid y m).profit
        = (fiscal_report db bid y m).sales - (fiscal_report db bid y m).expenses := by
  refine ⟨?_, ?_, rfl⟩
  · show (((db.movements.filter (inFiscalRange bid y m)).filter
        (fun r => r.tipo == "venta")).map (fun r => r.amount)).sum
      = salesInMonth db bid y m
    rw [fiscal_filter_eq db bid y m "venta" h1 h2 hv]
    rfl
  · show (((db.movements.filter (inFiscalRange bid y m)).filter
        (fun r => r.tipo == "gasto")).map (fun r => r.amount)).sum
      = expensesInMonth db bid y m
    rw [fiscal_filter_eq db bid y m "gasto" h1 h2 hv]
    rfl

/-- Witness for C3 at a concrete store and month (February of a leap
year): the movement on 2024-02-29 is included, the one on 2024-03-01 and
the one of the other business are not. -/
theorem c3_fiscal_summary_witness :
    (fiscal_report dbFiscal 1 2024 2).sales = salesInMonth dbFiscal 1 2024 2 ∧
      salesInMonth dbFiscal 1 2024 2 = 100 ∧
      (fiscal_report dbFiscal 1 2024 2).expenses = expensesInMonth dbFiscal 1 2024 2 ∧
      expensesInMonth dbFiscal 1 2024 2 = 40 ∧
      (fiscal_report dbFiscal 1 2024 2).profit
        = (fiscal_report dbFiscal 1 2024 2).sales - (fiscal_report dbFiscal 1 2024 2).expenses := by
  obtain ⟨hs, he, hp⟩ := c3_fiscal_summary dbFiscal 1 2024 2
    (by norm_num) (by norm_num) (by decide)
  refine ⟨hs, ?_, he, ?_, hp⟩
  · simp [salesInMonth, dbFiscal, mkMov]
  · simp [expensesInMonth, dbFiscal, mkMov]

theorem sum_amount_filter_split (l : List Movement) (p v g : Movement → Bool)
    (hd : ∀ a, v a = true → g a = false) :
    ((l.filter (fun a => v a && p a)).map (fun m => m.amount)).sum
      + ((l.filter (fun a => g a && p a)).map (fun m => m.amount)).sum
      = ((l.filter (fun a => p a && (v a || g a))).map (fun m => m.amount)).sum := by
  induction l with
  | nil => simp
  | cons a t ih =>
    by_cases hv : v a = true
    · have hg : g a = false := hd a hv
      by_cases hp : p a = true
      · simp only [List.filter_cons, hv, hg, hp, Bool.true_and, Bool.false_and,
          Bool.true_or, Bool.and_true, Bool.false_eq_true, if_true, if_false,
          List.map_cons, List.sum_cons]
        rw [← ih]; ring
      · have hp' : p a = false := by revert hp; cases p a <;> simp
        simp only [List.filter_cons, hv, hg, hp', Bool.true_and, Bool.false_and,
          Bool.false_or, Bool.and_true, Bool.and_false, if_false]
        exact ih
    · have hv' : v a = false := by revert hv; cases v a <;> simp
      by_cases hg : g a = true
      · by_cases hp : p a = true
        · simp only [List.filter_cons, hv', hg, hp, Bool.true_and, Bool.false_and,
            Bool.false_or, Bool.true_or, Bool.or_true, Bool.and_true,
            Bool.false_eq_true, if_true, if_false, List.map_cons, List.sum_cons]
          rw [← ih]; ring
        · have hp' : p a = false := by revert hp; cases p a <;> simp
          simp only [List.filter_cons, hv', hg, hp', Bool.true_and, Bool.false_and,
            Bool.and_true, Bool.and_false, if_false]
          exact ih
      · have hg' : g a = false := by revert hg; cases g a <;> simp
        simp only [List.filter_cons, hv', hg', Bool.false_and, Bool.false_or,
          Bool.or_false, Bool.and_false, if_false]
        exact ih

/-- C10: a movement whose kind is neither `venta` nor `gasto` is counted by
the fiscal report toward neither total: for every store, sales plus
expenses equals the sum of the amounts of only those in-month movements
whose kind is one of the two literals, and the reported profit is always
sales minus expenses.  In the concrete store holding a single in-month
movement of kind "ajuste" and amount 70, the report is all zeros while the
amounts of the month sum to 70. -/
theorem c10_unknown_kind_excluded :
    (∀ (db : AppDB) (bid y m : Nat),
      (fiscal_report db bid y m).profit
        = (fiscal_report db bid y m).sales - (fiscal_report db bid y m).expenses ∧
      (fiscal_report db bid y m).sales + (fiscal_report db bid y m).expenses
        = ((db.movements.filter (fun mv => inFiscalRange bid y m mv &&
            (mv.tipo == "venta" || mv.tipo == "gasto"))).map
            (fun mv => mv.amount)).sum) ∧
    (fiscal_report dbAdjust 1 2024 3 = ⟨0, 0, 0⟩ ∧
      ((dbAdjust.movements.filter (inFiscalRange 1 2024 3)).map
        (fun mv => mv.amount)).sum = 70) := by
  have disj : ∀ a : Movement, (a.tipo == "venta") = true → (a.tipo == "gasto") = false := by
    intro a ha
    have h : a.tipo = "venta" := by simpa using ha
    simp [h]
  refine ⟨fun db bid y m => ⟨rfl, ?_⟩, ?_, ?_⟩
  · show (((db.movements.filter (inFiscalRange bid y m)).filter
        (fun r => r.tipo == "venta")).map (fun r => r.amount)).sum
      + (((db.movements.filter (inFiscalRange bid y m)).filter
        (fun r => r.tipo == "gasto")).map (fun r => r.amount)).sum = _
    rw [List.filter_filter, List.filter_filter]
    exact sum_amount_filter_split db.movements (inFiscalRange bid y m)
      (fun a => a.tipo == "venta") (fun a => a.tipo == "gasto") disj
  · simp [fiscal_report, inFiscalRange, dbAdjust, mkMov, dateLE, monthEnd,
      prevDay, daysInMonth, isLeap]
  · simp [inFiscalRange, dbAdjust, mkMov, dateLE, monthEnd, prevDay,
      daysInMonth, isLeap]

theorem dateLE_refl (a : Date) : dateLE a a = true := by
  simp [dateLE]

theorem dateLE_trans {a b c : Date} (h1 : dateLE a b = true)
    (h2 : dateLE b c = true) : dateLE a c = true := by
  rw [dateLE_iff] at h1 h2 ⊢
  omega

theorem dateLE_total (a b : Date) :
    dateLE a b = true ∨ dateLE b a = true := by
  rw [dateLE_iff, dateLE_iff]
  omega

theorem foldl_maxStep_mem (ds : List Date) :
    ∀ a, ds.foldl maxStep a = a ∨ ds.foldl maxStep a ∈ ds := by
  induction ds with
  | nil => intro a; exact Or.inl rfl
  | cons d t ih =>
    intro a
    simp only [List.foldl_cons]
    rcases ih (maxStep a d) with h | h
    · rw [h]
      by_cases hc : dateLE a d = true
      · right; rw [maxStep, if_pos hc]; exact List.mem_cons_self d t
      · left; rw [maxStep, if_neg hc]
    · right; exact List.mem_cons_of_mem d h

theorem foldl_maxStep_ge_init (ds : List Date) :
    ∀ a, dateLE a (ds.foldl maxStep a) = true := by
  induction ds with
  | nil => intro a; exact dateLE_refl a
  | cons d t ih =>
    intro a
    simp only [List.foldl_cons]
    by_cases hc : dateLE a d = true
    · rw [maxStep, if_pos hc]; exact dateLE_trans hc (ih d)
    · rw [maxStep, if_neg hc]; exact ih a

theorem foldl_maxStep_ge_mem (ds : List Date) :
    ∀ a x, x ∈ ds → dateLE x (ds.foldl maxStep a) = true := by
  induction ds with
  | nil => intro a x hx; cases hx
  | cons d t ih =>
    intro a x hx
    simp only [List.foldl_cons]
    rcases List.mem_cons.mp hx with rfl | hx
    · by_cases hc : dateLE a x = true
      · rw [maxStep, if_pos hc]; exact foldl_maxStep_ge_init t x
      · rw [maxStep, if_neg hc]
        rcases dateLE_total a x with h | h
        · exact absurd h hc
        · exact dateLE_trans h (foldl_maxStep_ge_init t a)
    · exact ih _ x hx

theorem maxDate_mem (l : List Date) (h : l ≠ []) : maxDate l ∈ l := by
  cases l with
  | nil => exact absurd rfl h
  | cons d t =>
    rcases foldl_maxStep_mem t d with h1 | h1
    · rw [maxDate, h1]; exact List.mem_cons_self d t
    · rw [maxDate]; exact List.mem_cons_of_mem d h1

theorem maxDate_ge (l : List Date) : ∀ x ∈ l, dateLE x (maxDate l) = true := by
  cases l with
  | nil => intro x hx; cases hx
  | cons d t =>
    intro x hx
    rcases List.mem_cons.mp hx with rfl | hx
    · rw [maxDate]; exact foldl_maxStep_ge_init t x
    · rw [maxDate]; exact foldl_maxStep_ge_mem t d x hx

/-- C4: the forecast answers the insufficient-data error exactly when the
business has sale movements on fewer than 5 distinct dates; with 5 or more
distinct sale dates it always produces a forecast, and that forecast has 7
entries. -/
theorem c4_forecast_data_threshold (db : AppDB) (bid : Nat) :
    ((saleDates db bid).length < 5 →
      predict_sales db bid = .error "Not enough data for prediction") ∧
    (5 ≤ (saleDates db bid).length →
      ∃ l, predict_sales db bid = .ok l ∧ l.length = 7) ∧
    (∀ e, predict_sales db bid = .error e → (saleDates db bid).length < 5) := by
  refine ⟨?_, ?_, ?_⟩
  · intro h
    simp [predict_sales, h]
  · intro h
    refine ⟨(List.range 7).map (fun i =>
        (toOrdinal (maxDate (saleDates db bid)) + 1 + i,
         predLine (olsFit (trainPoints db bid))
           (toOrdinal (maxDate (saleDates db bid)) + 1 + i))), ?_, ?_⟩
    · simp [predict_sales, Nat.not_lt.mpr h]
    · simp
  · intro e he
    by_contra hc
    push_neg at hc
    simp [predict_sales, Nat.not_lt.mpr hc] at he

/-- Witness for C4: with no movements at all the forecast fails with the
error response, and with sale movements on exactly five distinct dates it
returns a 7-entry forecast. -/
theorem c4_forecast_data_threshold_witness :
    predict_sales dbEmpty 1 = .error "Not enough data for prediction" ∧
      ∃ l, predict_sales dbFiveSales 1 = .ok l ∧ l.length = 7 :=
  ⟨(c4_forecast_data_threshold dbEmpty 1).1 (by decide),
   (c4_forecast_data_threshold dbFiveSales 1).2.1 (by decide)⟩

/-- C5: when the forecast succeeds it returns exactly the 7 consecutive
ordinals following the ordinal of the latest observed sale date, each
paired with the least-squares line fitted over one training point per
distinct sale date (dates without sales contribute no point) and evaluated
at that ordinal; the latest observed date is one of the sale dates and is
an upper bound of them all in date order. -/
theorem c5_forecast_line (db : AppDB) (bid : Nat)
    (h : 5 ≤ (saleDates db bid).length) :
    predict_sales db bid = .ok ((List.range 7).map (fun i =>
        (toOrdinal (maxDate (saleDates db bid)) + 1 + i,
         predLine (olsFit (trainPoints db bid))
           (toOrdinal (maxDate (saleDates db bid)) + 1 + i)))) ∧
      maxDate (saleDates db bid) ∈ saleDates db bid ∧
      (∀ d ∈ saleDates db bid, dateLE d (maxDate (saleDates db bid)) = true) := by
  have hne : saleDates db bid ≠ [] := by
    intro hnil
    rw [hnil] at h
    simp at h
  exact ⟨by simp [predict_sales, Nat.not_lt.mpr h], maxDate_mem _ hne, maxDate_ge _⟩

/-- Witness for C5 at the concrete five-date store. -/
theorem c5_forecast_line_witness :
    predict_sales dbFiveSales 1 = .ok ((List.range 7).map (fun i =>
        (toOrdinal (maxDate (saleDates dbFiveSales 1)) + 1 + i,
         predLine (olsFit (trainPoints dbFiveSales 1))
           (toOrdinal (maxDate (saleDates dbFiveSales 1)) + 1 + i)))) ∧
      maxDate (saleDates dbFiveSales 1) ∈ saleDates dbFiveSales 1 ∧
      (∀ d ∈ saleDates dbFiveSales 1,
        dateLE d (maxDate (saleDates dbFiveSales 1)) = true) :=
  c5_forecast_line dbFiveSales 1 (by decide)

/-- C7: round-trip of record and aggregate: after recording a `venta`
movement of amount 100 on day `d` for business `bid`, the daily total of
that day is exactly 100 more than before the record, and the daily series
over any window containing `d` carries that increased total for `d`. -/
theorem c7_record_then_daily_total (db : AppDB) (bid t : Nat)
    (cat note : Option String) (start : Date) (n : Nat) (d : Date)
    (hd : d ∈ dateRange start n) :
    dayTotal ((api_movements_post db bid d t "venta" 100 cat note).2) bid d
        = dayTotal db bid d + 100 ∧
      (d, dayTotal db bid d + 100) ∈
        plot_sales_totals ((api_movements_post db bid d t "venta" 100 cat note).2)
          bid start n := by
  have h1 : dayTotal ((api_movements_post db bid d t "venta" 100 cat note).2) bid d
      = dayTotal db bid d + 100 := by
    show ((((db.movements ++ [(⟨db.nextMid, bid, d, t, "venta", 100, cat, note⟩ : Movement)]).filter
        (fun m => m.business_id == bid && m.date == d))).map (fun m => m.amount)).sum
      = dayTotal db bid d + 100
    simp [dayTotal, List.filter_append]
  refine ⟨h1, ?_⟩
  have h2 : (d, dayTotal ((api_movements_post db bid d t "venta" 100 cat note).2) bid d)
      ∈ plot_sales_totals ((api_movements_post db bid d t "venta" 100 cat note).2)
          bid start n :=
    List.mem_map_of_mem _ hd
  rw [h1] at h2
  exact h2

/-- Witness for C7: the round-trip of the spec example, recording a sale
of 100 on 2024-01-01 over a store already holding a sale of 10 that day:
the total for the day goes from 10 to 110. -/
theorem c7_record_then_daily_total_witness :
    dayTotal ((api_movements_post dbRound 1 ⟨2024, 1, 1⟩ 0 "venta" 100 none none).2)
        1 ⟨2024, 1, 1⟩ = dayTotal dbRound 1 ⟨2024, 1, 1⟩ + 100 ∧
      (⟨2024, 1, 1⟩, dayTotal dbRound 1 ⟨2024, 1, 1⟩ + 100) ∈
        plot_sales_totals ((api_movements_post dbRound 1 ⟨2024, 1, 1⟩ 0 "venta" 100 none none).2)
          1 ⟨2024, 1, 1⟩ 1 ∧
      dayTotal dbRound 1 ⟨2024, 1, 1⟩ = 10 := by
  obtain ⟨ha, hb⟩ := c7_record_then_daily_total dbRound 1 0 none none
    ⟨2024, 1, 1⟩ 1 ⟨2024, 1, 1⟩ (by decide)
  exact ⟨ha, hb, by simp [dayTotal, dbRound, mkMov]⟩

theorem catLabel_inj {c1 c2 : Option String}
    (h1 : c1 ≠ some "" ∧ c1 ≠ some "sin-categoria")
    (h2 : c2 ≠ some "" ∧ c2 ≠ some "sin-categoria")
    (he : catLabel c1 = catLabel c2) : c1 = c2 := by
  cases c1 with
  | none =>
    cases c2 with
    | none => rfl
    | some s =>
      have hs : ¬s = "" := fun hh => h2.1 (by rw [hh])
      rw [catLabel, catLabel, if_neg hs] at he
      exact absurd (congrArg some he.symm) h2.2
  | some s =>
    cases c2 with
    | none =>
      have hs : ¬s = "" := fun hh => h1.1 (by rw [hh])
      rw [catLabel, catLabel, if_neg hs] at he
      exact absurd (congrArg some he) h1.2
    | some s2 =>
      have hs : ¬s = "" := fun hh => h1.1 (by rw [hh])
      have hs2 : ¬s2 = "" := fun hh => h2.1 (by rw [hh])
      rw [catLabel, if_neg hs, catLabel, if_neg hs2] at he
      rw [he]

theorem find_label_eq (S : Option String → Rat) (l : String) (c0 : Option String) :
    ∀ cats : List (Option String), c0 ∈ cats → catLabel c0 = l →
      (∀ c ∈ cats, catLabel c = l → c = c0) →
      (cats.map (fun c => (catLabel c, S c))).find? (fun p => p.1 == l)
        = some (l, S c0) := by
  intro cats
  induction cats with
  | nil => intro hc _ _; cases hc
  | cons c t ih =>
    intro hc0 hl huniq
    rw [List.map_cons]
    by_cases hcl : catLabel c = l
    · have hc' : c = c0 := huniq c (List.mem_cons_self c t) hcl
      subst hc'
      rw [List.find?_cons_of_pos _ (by simp [hcl]), hcl]
    · rw [List.find?_cons_of_neg _ (by simp [hcl])]
      have hc0' : c0 ∈ t := by
        rcases List.mem_cons.mp hc0 with rfl | hmem
        · exact absurd hl hcl
        · exact hmem
      exact ih hc0' hl (fun c' hc' => huniq c' (List.mem_cons_of_mem c hc'))

theorem find_label_none (S : Option String → Rat) (l : String)
    (cats : List (Option String)) (hno : ∀ c ∈ cats, catLabel c ≠ l) :
    (cats.map (fun c => (catLabel c, S c))).find? (fun p => p.1 == l) = none := by
  rw [List.find?_eq_none]
  intro p hp
  obtain ⟨c, hc, rfl⟩ := List.mem_map.mp hp
  simp [hno c hc]

/-- C6 counterexample: the claim quantifies over every store, but the
grouping of `plot_category` is by the raw category value while the label
rewrite collapses both the missing category and the empty-string category
into the sentinel.  On the store holding a movement of amount 5 with
category "" and a movement of amount 7 with no category, the result has
two entries with the same label, so as a mapping the sentinel carries only
the total 5 of the first group; neither does any entry pair the label ""
with its movements (which the claim requires if "" counts as a label), nor
is the total of all uncategorized movements (12, if "" counts as no
category) associated with the sentinel. -/
theorem c6_category_totals_counterexample :
    plot_category_data dbCatDup 1 = [("sin-categoria", 5), ("sin-categoria", 7)] ∧
      lookupTotal (plot_category_data dbCatDup 1) "sin-categoria" = some 5 ∧
      catSum dbCatDup 1 "sin-categoria" = 12 ∧
      lookupTotal (plot_category_data dbCatDup 1) "" = none := by
  refine ⟨?_, ?_, ?_, ?_⟩
  · simp [plot_category_data, api_movements_get, dbCatDup, mkMov, catLabel,
      List.dedup]
  · simp [lookupTotal, plot_category_data, api_movements_get, dbCatDup, mkMov,
      catLabel, List.dedup]
  · simp [catSum, effLabel, api_movements_get, dbCatDup, mkMov, catLabel]
    norm_num
  · simp [lookupTotal, plot_category_data, api_movements_get, dbCatDup, mkMov,
      catLabel, List.dedup]

/-- C6 (amended): for a business none of whose movements carries the empty
string or the literal sentinel string as its category, `plot_category`
returns a genuine mapping: the labels are pairwise distinct, and looking a
label up yields the sum of the amounts of exactly the movements carrying
that label (sales and expenses summed together), movements with no
category counting under the sentinel label, with absent labels absent from
the mapping. -/
theorem c6_category_totals (db : AppDB) (bid : Nat)
    (h : ∀ mv ∈ api_movements_get db bid,
      mv.category ≠ some "" ∧ mv.category ≠ some "sin-categoria") :
    ((plot_category_data db bid).map (fun p => p.1)).Nodup ∧
      ∀ l, lookupTotal (plot_category_data db bid) l
        = if hasLabel db bid l then some (catSum db bid l) else none := by
  have hplot : plot_category_data db bid
      = (((api_movements_get db bid).map (fun m => m.category)).dedup).map (fun c =>
        (catLabel c, (((api_movements_get db bid).filter
          (fun m => m.category == c)).map (fun m => m.amount)).sum)) := rfl
  have hgood : ∀ c ∈ ((api_movements_get db bid).map (fun m => m.category)).dedup,
      c ≠ some "" ∧ c ≠ some "sin-categoria" := by
    intro c hc
    obtain ⟨mv, hmv, rfl⟩ := List.mem_map.mp (List.mem_dedup.mp hc)
    exact h mv hmv
  constructor
  · rw [hplot, List.map_map]
    have : ((fun p => p.1) ∘ (fun c => (catLabel c, (((api_movements_get db bid).filter
        (fun m => m.category == c)).map (fun m => m.amount)).sum)))
        = fun c => catLabel c := rfl
    rw [this]
    exact List.Nodup.map_on
      (fun x hx y hy he => catLabel_inj (hgood x hx) (hgood y hy) he)
      (List.nodup_dedup _)
  · intro l
    by_cases hl : hasLabel db bid l = true
    · obtain ⟨mv0, hmv0, hbeq⟩ := List.any_eq_true.mp hl
      have hel : catLabel mv0.category = l := by simpa [effLabel] using hbeq
      have hc0 : mv0.category ∈ ((api_movements_get db bid).map
          (fun m => m.category)).dedup :=
        List.mem_dedup.mpr (List.mem_map_of_mem _ hmv0)
      have huniq : ∀ c ∈ ((api_movements_get db bid).map (fun m => m.category)).dedup,
          catLabel c = l → c = mv0.category := by
        intro c hc hcl
        exact catLabel_inj (hgood c hc) (h mv0 hmv0) (hcl.trans hel.symm)
      have hfind := find_label_eq
        (fun c => (((api_movements_get db bid).filter
          (fun m => m.category == c)).map (fun m => m.amount)).sum)
        l mv0.category _ hc0 hel huniq
      have hfeq : (api_movements_get db bid).filter (fun m => m.category == mv0.category)
          = (api_movements_get db bid).filter (fun mv => effLabel mv == l) := by
        apply List.filter_congr
        intro mv hmv
        rw [Bool.eq_iff_iff]
        simp only [beq_iff_eq, effLabel]
        constructor
        · intro he
          rw [he]
          exact hel
        · intro he
          exact catLabel_inj (h mv hmv) (h mv0 hmv0) (he.trans hel.symm)
      rw [if_pos hl, lookupTotal, hplot, hfind]
      show some ((((api_movements_get db bid).filter
          (fun m => m.category == mv0.category)).map (fun m => m.amount)).sum)
        = some (catSum db bid l)
      rw [hfeq, catSum]
    · have hl' : hasLabel db bid l = false := by
        revert hl; cases hasLabel db bid l <;> simp
      have hno : ∀ c ∈ ((api_movements_get db bid).map (fun m => m.category)).dedup,
          catLabel c ≠ l := by
        intro c hc hcl
        obtain ⟨mv, hmv, rfl⟩ := List.mem_map.mp (List.mem_dedup.mp hc)
        have htrue : hasLabel db bid l = true :=
          List.any_eq_true.mpr ⟨mv, hmv, by simp [effLabel, hcl]⟩
        rw [hl'] at htrue
        cases htrue
      rw [if_neg (by simp [hl']), lookupTotal, hplot,
        find_label_none _ l _ hno]
      rfl

/-- Witness for C6 on the example of the spec: movements of 50 and 30 with
category "rent" and one of 20 with no category give a mapping with "rent"
at 80 and the sentinel label at 20. -/
theorem c6_category_totals_witness :
    lookupTotal (plot_category_data dbCat 1) "rent" = some 80 ∧
      lookupTotal (plot_category_data dbCat 1) "sin-categoria" = some 20 ∧
      ((plot_category_data dbCat 1).map (fun p => p.1)).Nodup := by
  obtain ⟨hnd, hmap⟩ := c6_category_totals dbCat 1 (by decide)
  refine ⟨?_, ?_, hnd⟩
  · rw [hmap "rent"]
    rw [if_pos (by decide)]
    have : catSum dbCat 1 "rent" = 80 := by
      simp [catSum, effLabel, api_movements_get, dbCat, mkMov, catLabel]
      norm_num
    rw [this]
  · rw [hmap "sin-categoria"]
    rw [if_pos (by decide)]
    have : catSum dbCat 1 "sin-categoria" = 20 := by
      simp [catSum, effLabel, api_movements_get, dbCat, mkMov, catLabel]
    rw [this]

end MiWeb
